import Mathlib

/-!
Verification of the Conversation State & Personalization Engine of the
EventChatBotBackend repository.  The Python services are shallowly embedded:

* strings are Lean `String`s, Python `keyword in text` is infix search on the
  character list, `str.lower()` maps `Char.toLower`, `str.strip()` drops
  whitespace at both ends and `str.split()` splits on whitespace runs;
* chat messages are records with optional `role`/`content` fields,
  `msg.get("role")` is the `Option`, `msg.get("content", "")` is `Option.getD`;
* database rows (interests, preferences) for a fixed profile are lists in
  insertion order; SQLAlchemy `filter(...).first()` updates the first matching
  row, `db.add` appends;
* float confidences become exact rationals (`0.1` is `1/10` and so on);
* Python's stable `sorted(key, reverse=True)` is a stable insertion sort with
  the flipped comparison, and `list(set(xs))` is de-duplication (`List.dedup`).
-/

/-- Python `str.lower()` (per-character lowercasing; CJK characters are
unaffected just as in the source's Chinese keyword tables). -/
def strToLower (s : String) : String := ⟨s.toList.map Char.toLower⟩

/-- Python `needle in hay` substring membership. -/
def containsSub (hay needle : String) : Bool := decide (needle.toList <:+: hay.toList)

/-- Python `str.strip()`: drop whitespace from both ends. -/
def stripStr (s : String) : String :=
  ⟨((s.toList.dropWhile Char.isWhitespace).reverse.dropWhile Char.isWhitespace).reverse⟩

/-- Helper for `splitWords`: walk the characters, accumulating the current
word in reverse. -/
def splitWordsAux : List Char → List Char → List String
  | [], cur => if cur.isEmpty then [] else [⟨cur.reverse⟩]
  | c :: cs, cur =>
    if c.isWhitespace then
      (if cur.isEmpty then [] else [⟨cur.reverse⟩]) ++ splitWordsAux cs []
    else splitWordsAux cs (c :: cur)

/-- Python `str.split()` with no separator: split on whitespace runs, dropping
empty fragments. -/
def splitWords (s : String) : List String := splitWordsAux s.toList []

/-- A chat-history entry, a JSON object whose `role` and `content` fields may
be absent (`msg.get` then yields `None`). -/
structure Msg where
  role : Option String
  content : Option String
deriving DecidableEq, Repr

/-- Python `any(keyword in text for keyword in keywords)`. -/
def anyKeyword (keywords : List String) (text : String) : Bool :=
  keywords.any (fun k => containsSub text k)

/-! ## ConversationStageService (services/conversation_stage_service.py) -/

def opening_keywords : List String := ["你好", "hello", "hi", "嗨", "您好", "開始", "幫助"]

def exploring_keywords : List String := ["喜歡", "想要", "偏好", "興趣", "類型", "什麼樣", "推薦"]

def clarifying_keywords : List String := ["具體", "詳細", "確認", "是否", "對嗎", "正確嗎", "意思是"]

def searching_keywords : List String := ["搜尋", "查找", "找", "活動", "事件", "搜索"]

def recommending_keywords : List String := ["推薦", "建議", "適合", "可以試試", "為您找到"]

def deciding_keywords : List String := ["考慮", "想想", "決定", "選擇", "報名", "參加", "不錯", "感興趣"]

def closing_keywords : List String := ["謝謝", "再見", "結束", "不用了", "夠了", "bye"]

/-- `ConversationStageService._rule_based_stage_analysis`: the deterministic
rule-based fallback.  Lowercased user/assistant messages are collected, the
last of each is matched against the seven keyword families in source order,
and a length heuristic closes the chain. -/
def rule_based_stage_analysis (chat_history : List Msg) : String :=
  if chat_history.isEmpty then "opening"
  else
    let conversation_length := chat_history.length
    let user_messages :=
      (chat_history.filter (fun m => m.role == some "user")).map
        (fun m => strToLower (m.content.getD ""))
    let bot_messages :=
      (chat_history.filter (fun m => m.role == some "assistant")).map
        (fun m => strToLower (m.content.getD ""))
    let last_user_message := user_messages.getLast?.getD ""
    let last_bot_message := bot_messages.getLast?.getD ""
    if conversation_length ≤ 2 then "opening"
    else if anyKeyword closing_keywords last_user_message then "closing"
    else if anyKeyword searching_keywords last_user_message then "searching"
    else if anyKeyword recommending_keywords last_bot_message then "recommending"
    else if anyKeyword deciding_keywords last_user_message then "deciding"
    else if anyKeyword clarifying_keywords last_user_message then "clarifying"
    else if anyKeyword exploring_keywords last_user_message then "exploring"
    else if anyKeyword opening_keywords last_user_message then "opening"
    else if conversation_length ≤ 4 then "exploring"
    else if conversation_length ≤ 8 then "clarifying"
    else if conversation_length ≤ 12 then "searching"
    else "recommending"

def valid_stages : List String :=
  ["opening", "exploring", "clarifying", "searching", "recommending", "deciding", "closing"]

/-- `ConversationStageService.analyze_conversation_stage`.  The external
classifier is abstracted as an oracle: `none` is a connectivity error, timeout
or any other exception (all of which fall back to the rule-based analysis),
`some out` is the text the classifier returned. -/
def analyze_conversation_stage (classifierOutput : Option String)
    (chat_history : List Msg) : String :=
  if chat_history.isEmpty then "opening"
  else if chat_history.length ≤ 2 then "opening"
  else
    match classifierOutput with
    | none => rule_based_stage_analysis chat_history
    | some out =>
      let stage := strToLower (stripStr out)
      if valid_stages.contains stage then stage
      else rule_based_stage_analysis chat_history

/-- Modelled from the spec: the last user message of a history (lowercased
content, empty when there is none), as named by the reference priority
definition of §4.2. -/
def lastUserUtterance (h : List Msg) : String :=
  (((h.filter (fun m => m.role == some "user")).getLast?).map
    (fun m => strToLower (m.content.getD ""))).getD ""

/-- Modelled from the spec: the last assistant message of a history. -/
def lastAssistantUtterance (h : List Msg) : String :=
  (((h.filter (fun m => m.role == some "assistant")).getLast?).map
    (fun m => strToLower (m.content.getD ""))).getD ""

/-- Modelled from the spec: the length-based heuristic of the reference
priority definition (total turn count ≤ 4 / ≤ 8 / ≤ 12 / otherwise). -/
def specLengthHeuristic (n : ℕ) : String :=
  if n ≤ 4 then "exploring"
  else if n ≤ 8 then "clarifying"
  else if n ≤ 12 then "searching"
  else "recommending"

/-- Modelled from the spec (§4.2): the reference priority definition of the
rule-based fallback — the seven keyword families tested in the exact order
closing, searching, recommending (assistant side), deciding, clarifying,
exploring, opening, then the length heuristic. -/
def specStagePriority (h : List Msg) : String :=
  if anyKeyword closing_keywords (lastUserUtterance h) then "closing"
  else if anyKeyword searching_keywords (lastUserUtterance h) then "searching"
  else if anyKeyword recommending_keywords (lastAssistantUtterance h) then "recommending"
  else if anyKeyword deciding_keywords (lastUserUtterance h) then "deciding"
  else if anyKeyword clarifying_keywords (lastUserUtterance h) then "clarifying"
  else if anyKeyword exploring_keywords (lastUserUtterance h) then "exploring"
  else if anyKeyword opening_keywords (lastUserUtterance h) then "opening"
  else specLengthHeuristic h.length

/-! ## IntentAnalysisService (services/analysis_service.py) -/

def search_keywords : List String := ["找", "搜尋", "查找", "活動", "展覽", "音樂會", "講座", "課程", "推薦"]

def detail_keywords : List String := ["詳情", "詳細", "資訊", "介紹", "說明"]

def analysis_keywords : List String := ["分析", "統計", "趨勢", "報告"]

def recommendation_keywords : List String := ["推薦", "建議", "適合"]

def greeting_keywords : List String := ["你好", "哈囉", "嗨", "hello", "hi"]

def goodbye_keywords : List String := ["再見", "掰掰", "bye", "goodbye"]

/-- `IntentAnalysisService._fallback_intent_analysis`: keyword scan over the
lowercased message, in source order, defaulting to `other`. -/
def fallback_intent_analysis (message : String) : String :=
  let message_lower := strToLower message
  if anyKeyword search_keywords message_lower then "search_events"
  else if anyKeyword detail_keywords message_lower then "get_event_details"
  else if anyKeyword analysis_keywords message_lower then "analyze_trends"
  else if anyKeyword recommendation_keywords message_lower then "get_recommendations"
  else if anyKeyword greeting_keywords message_lower then "greeting"
  else if anyKeyword goodbye_keywords message_lower then "goodbye"
  else "other"

/-- Modelled from the spec (§4.1): the reference fallback — scan the
per-intent keyword sets in a fixed priority order, first match wins, `other`
on no match. -/
def specIntentScan (message : String) : List (String × List String) → String
  | [] => "other"
  | (intent, keywords) :: rest =>
    if anyKeyword keywords (strToLower message) then intent
    else specIntentScan message rest

/-- Modelled from the spec: the fixed priority order of the per-intent
keyword families. -/
def specIntentFamilies : List (String × List String) :=
  [("search_events", search_keywords),
   ("get_event_details", detail_keywords),
   ("analyze_trends", analysis_keywords),
   ("get_recommendations", recommendation_keywords),
   ("greeting", greeting_keywords),
   ("goodbye", goodbye_keywords)]

/-! ## ProactiveQuestioningService (services/proactive_questioning_service.py) -/

def vague_indicators : List String := ["不知道", "隨便", "都可以", "看看", "沒想法", "不確定"]

def interest_indicators : List String := ["不錯", "有趣", "看起來", "感覺", "好像"]

def open_questions : List String := ["什麼", "如何", "怎麼", "為什麼", "哪裡", "哪個"]

/-- Python `history[-4:]`: the last four entries. -/
def lastFourOf (l : List Msg) : List Msg := l.drop (l.length - 4)

/-- The user messages among the last four turns of a history (the slice
examined by gating trigger 5). -/
def lastFourUserMsgs (history : List Msg) : List Msg :=
  (lastFourOf history).filter (fun m => m.role == some "user")

/-- All whitespace-separated words of the lowercased contents of a message
list (`all_words` in `_is_conversation_stagnant`). -/
def allWordsOf (msgs : List Msg) : List String :=
  ((msgs.map (fun m => strToLower (m.content.getD ""))).map splitWords).flatten

/-- The vocabulary repetition ratio `1 - unique_words / total_words`. -/
def repetitionRatio (ws : List String) : ℚ :=
  1 - (ws.dedup.length : ℚ) / (ws.length : ℚ)

/-- `ProactiveQuestioningService._is_conversation_stagnant`. -/
def is_conversation_stagnant (user_messages : List Msg) : Bool :=
  if user_messages.length < 2 then false
  else
    let all_words := allWordsOf user_messages
    if all_words.length = 0 then true
    else decide (repetitionRatio all_words > 6/10)

/-- `ProactiveQuestioningService.should_ask_proactive_question`.  The only
context field the source reads is `context.get("conversation_history", [])`,
so the context argument is that history. -/
def should_ask_proactive_question (user_message bot_response : String)
    (conversation_history : List Msg) : Bool × String :=
  let user_message_lower := strToLower user_message
  if (stripStr user_message).length < 10 then
    (true, "用戶回應簡短，需要更多引導")
  else if anyKeyword vague_indicators user_message_lower then
    (true, "用戶需求模糊，需要澄清")
  else if containsSub bot_response "搜尋結果" && !containsSub bot_response "?" then
    (true, "提供搜尋結果後需要引導用戶")
  else if anyKeyword interest_indicators user_message_lower then
    (true, "用戶表達興趣，可以深入探索")
  else if 6 < conversation_history.length ∧
      2 ≤ (lastFourUserMsgs conversation_history).length ∧
      is_conversation_stagnant (lastFourUserMsgs conversation_history) then
    (true, "對話停滯，需要新的方向")
  else if open_questions.any (fun q => containsSub user_message q) then
    (true, "用戶提出開放性問題，可以提供更多選項")
  else
    (false, "當前對話流暢，無需主動提問")

/-! ## UserProfileDBService (services/user_profile_db_service.py)

Rows of the `user_interests` table for one fixed profile, as `(interest,
confidence)` pairs in insertion order. -/

/-- One step of `_update_interests_db`: look up the first row with the given
interest name; bump its confidence by `0.1` clamped at `1.0` if found,
otherwise insert a row with confidence `0.7`. -/
def upsertInterest : List (String × ℚ) → String → List (String × ℚ)
  | [], name => [(name, 7/10)]
  | r :: rs, name =>
    if r.1 = name then (r.1, min (r.2 + 1/10) 1) :: rs
    else r :: upsertInterest rs name

/-- `_update_interests_db` over the whole `interests` list of the payload. -/
def update_interests_db (tbl : List (String × ℚ)) (interests : List String) :
    List (String × ℚ) :=
  interests.foldl upsertInterest tbl

/-- The stored confidence for an interest name (first matching row). -/
def confOf (tbl : List (String × ℚ)) (name : String) : Option ℚ :=
  (tbl.find? (fun r => r.1 == name)).map (fun r => r.2)

/-- Repeated upserts of the same interest name. -/
def iterUpsert (tbl : List (String × ℚ)) (name : String) : ℕ → List (String × ℚ)
  | 0 => tbl
  | k + 1 => upsertInterest (iterUpsert tbl name k) name

/-- One row of the `user_preferences` table. -/
structure PrefRow where
  ptype : String
  pvalue : String
  conf : ℚ
deriving DecidableEq, Repr

/-- The per-`(preference_type, preference_value)` upsert inside
`_update_preferences_db`: bump the first matching row's confidence by `0.1`
clamped at `1.0`, else insert a row with confidence `0.7`. -/
def upsertPreference : List PrefRow → String → String → List PrefRow
  | [], t, v => [⟨t, v, 7/10⟩]
  | r :: rs, t, v =>
    if r.ptype = t ∧ r.pvalue = v then ⟨r.ptype, r.pvalue, min (r.conf + 1/10) 1⟩ :: rs
    else r :: upsertPreference rs t v

/-- Number of rows recording a given `(type, value)` pair. -/
def countRows (rows : List PrefRow) (t v : String) : ℕ :=
  rows.countP (fun r => decide (r.ptype = t ∧ r.pvalue = v))

/-- The five-bucket result dictionary built by `_get_user_preferences`. -/
structure PrefsResult where
  preferred_categories : List String
  preferred_locations : List String
  preferred_times : List String
  group_preference : Option String
  budget_sensitivity : Option String
deriving DecidableEq, Repr

def emptyPrefsResult : PrefsResult := ⟨[], [], [], none, none⟩

/-- The loop body of `_get_user_preferences`: route one row into its bucket
(list buckets append, the two scalar buckets overwrite). -/
def prefStep (acc : PrefsResult) (p : PrefRow) : PrefsResult :=
  if p.ptype = "category" then
    { acc with preferred_categories := acc.preferred_categories ++ [p.pvalue] }
  else if p.ptype = "location" then
    { acc with preferred_locations := acc.preferred_locations ++ [p.pvalue] }
  else if p.ptype = "time" then
    { acc with preferred_times := acc.preferred_times ++ [p.pvalue] }
  else if p.ptype = "group_size" then
    { acc with group_preference := some p.pvalue }
  else if p.ptype = "budget" then
    { acc with budget_sensitivity := some p.pvalue }
  else acc

/-- `_get_user_preferences`: bucket all preference rows of a profile. -/
def get_user_preferences (rows : List PrefRow) : PrefsResult :=
  rows.foldl prefStep emptyPrefsResult

/-- How often a value appears in the list bucket that belongs to a
preference type (zero for non-list types). -/
def listBucketCount (p : PrefsResult) (t v : String) : ℕ :=
  if t = "category" then p.preferred_categories.count v
  else if t = "location" then p.preferred_locations.count v
  else if t = "time" then p.preferred_times.count v
  else 0

/-- The single-slot bucket belonging to a scalar preference type. -/
def scalarBucket (p : PrefsResult) (t : String) : Option String :=
  if t = "group_size" then p.group_preference
  else if t = "budget" then p.budget_sensitivity
  else none

/-- A stored user profile (the parts `get_personalized_recommendations`
reads): the profile row plus its interest and preference child rows.  Trait
maps keep their entries as association lists, only sizes matter here. -/
structure StoredProfile where
  visit_count : ℕ
  interestRows : List (String × ℚ)
  prefRows : List PrefRow
  personality_traits : List (String × ℚ)
deriving Repr

/-- A value of the dictionary `_get_user_preferences` returns: three of its
keys hold lists, two hold an optional scalar. -/
inductive PrefDictVal
  | strList (l : List String)
  | strOpt (o : Option String)
deriving DecidableEq, Repr

/-- The `activity_preferences` dictionary exactly as `_get_user_preferences`
builds it: it always carries the same five keys. -/
def preferencesDict (rows : List PrefRow) : List (String × PrefDictVal) :=
  [("preferred_categories", .strList (get_user_preferences rows).preferred_categories),
   ("preferred_locations", .strList (get_user_preferences rows).preferred_locations),
   ("preferred_times", .strList (get_user_preferences rows).preferred_times),
   ("group_preference", .strOpt (get_user_preferences rows).group_preference),
   ("budget_sensitivity", .strOpt (get_user_preferences rows).budget_sensitivity)]

/-- The `confidence` computed by `get_personalized_recommendations`:
`sum([len(interests) > 0, len(preferences) > 0, len(personality) > 0,
visit_count > 1]) / 4`, where `preferences` is the five-key dictionary. -/
def recommendation_confidence (p : StoredProfile) : ℚ :=
  (((if 0 < p.interestRows.length then 1 else 0) +
    (if 0 < (preferencesDict p.prefRows).length then 1 else 0) +
    (if 0 < p.personality_traits.length then 1 else 0) +
    (if 1 < p.visit_count then 1 else 0) : ℚ)) / 4

/-- Modelled from the spec (claim C10): the fraction of the four completeness
checks satisfied, where the second check is "has at least one recorded
preference". -/
def specCompletenessFraction (p : StoredProfile) : ℚ :=
  (((if 0 < p.interestRows.length then 1 else 0) +
    (if 0 < p.prefRows.length then 1 else 0) +
    (if 0 < p.personality_traits.length then 1 else 0) +
    (if 1 < p.visit_count then 1 else 0) : ℚ)) / 4

/-! ## Cross-session merge (`_integrate_profiles`) -/

/-- One session's profile as `_integrate_profiles` consumes it: the scalar
columns (each nullable) plus the session's interest and preference rows. -/
structure SessionProfile where
  total_interactions : Option ℕ
  satisfaction_score : Option ℚ
  last_activity : Option ℕ
  interests : List (String × ℚ)
  prefRows : List PrefRow
deriving Repr

/-- One step of the `unique_interests` de-duplication loop: a dict keyed by
interest name keeps the entry with the strictly highest confidence seen so
far (insertion order preserved, in-place overwrite). -/
def dedupStep (acc : List (String × ℚ)) (it : String × ℚ) : List (String × ℚ) :=
  match acc.find? (fun e => e.1 == it.1) with
  | some e => if e.2 < it.2 then acc.map (fun x => if x.1 == it.1 then it else x) else acc
  | none => acc ++ [it]

/-- The `unique_interests` de-duplication loop of `_integrate_profiles`. -/
def dedupKeepMax (l : List (String × ℚ)) : List (String × ℚ) :=
  l.foldl dedupStep []

/-- Python `sorted(values, key=confidence, reverse=True)`: a stable sort,
descending by confidence. -/
def sortByConfDesc (l : List (String × ℚ)) : List (String × ℚ) :=
  List.insertionSort (fun a b => b.2 ≤ a.2) l

/-- The merged `activity_preferences` dictionary: it always has the same five
keys; list-valued buckets are concatenated, the two scalar buckets are
collected as (possibly null) values, then every bucket is de-duplicated with
`list(set(...))`. -/
structure MergedPrefs where
  preferred_categories : List String
  preferred_locations : List String
  preferred_times : List String
  group_preference : List (Option String)
  budget_sensitivity : List (Option String)
deriving DecidableEq, Repr

def mergePrefs (ps : List SessionProfile) : MergedPrefs :=
  { preferred_categories :=
      (ps.flatMap (fun p => (get_user_preferences p.prefRows).preferred_categories)).dedup
    preferred_locations :=
      (ps.flatMap (fun p => (get_user_preferences p.prefRows).preferred_locations)).dedup
    preferred_times :=
      (ps.flatMap (fun p => (get_user_preferences p.prefRows).preferred_times)).dedup
    group_preference :=
      (ps.map (fun p => (get_user_preferences p.prefRows).group_preference)).dedup
    budget_sensitivity :=
      (ps.map (fun p => (get_user_preferences p.prefRows).budget_sensitivity)).dedup }

/-- The integrated cross-session profile (the fields `_integrate_profiles`
computes from its inputs). -/
structure IntegratedProfile where
  visit_count : ℕ
  total_interactions : ℕ
  satisfaction_score : Option ℚ
  last_activity : ℕ
  interests : List (String × ℚ)
  prefs : MergedPrefs
deriving Repr

/-- `UserProfileDBService._integrate_profiles`.  `none` is the
default-profile fallback: the source returns it for an empty profile list and
when `max()` over the non-null activity timestamps raises on an empty
sequence (every exception is caught and mapped to the default profile). -/
def integrate_profiles (ps : List SessionProfile) : Option IntegratedProfile :=
  if ps.isEmpty then none
  else
    match (ps.filterMap (fun p => p.last_activity)).max? with
    | none => none
    | some la => some
      { visit_count := ps.length
        total_interactions := (ps.map (fun p => p.total_interactions.getD 0)).sum
        satisfaction_score :=
          let scores := ps.filterMap (fun p => p.satisfaction_score)
          if scores.isEmpty then none else some (scores.sum / (scores.length : ℚ))
        last_activity := la
        interests := sortByConfDesc (dedupKeepMax (ps.flatMap (fun p => p.interests)))
        prefs := mergePrefs ps }

/-! ## Claims about the stage classifier and intent fallback -/

set_option maxHeartbeats 2000000 in
/-- Membership of the stage decision chain in the valid-stage set, for
arbitrary branch outcomes. -/
theorem stage_chain_mem_valid (n : ℕ) (b1 b2 b3 b4 b5 b6 b7 : Bool) :
    (if n ≤ 2 then "opening"
     else if b1 then "closing"
     else if b2 then "searching"
     else if b3 then "recommending"
     else if b4 then "deciding"
     else if b5 then "clarifying"
     else if b6 then "exploring"
     else if b7 then "opening"
     else if n ≤ 4 then "exploring"
     else if n ≤ 8 then "clarifying"
     else if n ≤ 12 then "searching"
     else "recommending") ∈ valid_stages := by
  split_ifs <;> simp [valid_stages]

/-- C3: on every history longer than 2 turns the rule-based fallback equals
the reference priority definition — the seven keyword families in the exact
order closing, searching, recommending (last assistant message), deciding,
clarifying, exploring, opening, then the length heuristic
(≤ 4 exploring, ≤ 8 clarifying, ≤ 12 searching, else recommending). -/
theorem C3_rule_based_matches_spec (h : List Msg) (hlen : 2 < h.length) :
    rule_based_stage_analysis h = specStagePriority h := by
  have hne : h.isEmpty = false := by
    cases h
    · simp at hlen
    · rfl
  have h2 : ¬ (h.length ≤ 2) := by omega
  simp only [rule_based_stage_analysis, specStagePriority, lastUserUtterance,
    lastAssistantUtterance, specLengthHeuristic, hne, Bool.false_eq_true, if_false,
    if_neg h2, List.getLast?_map]

/-- Witness for C3 at a concrete 3-message history. -/
theorem C3_rule_based_matches_spec_witness :
    rule_based_stage_analysis
        [⟨some "user", some "hi"⟩, ⟨some "assistant", some "hello"⟩,
         ⟨some "user", some "謝謝"⟩] =
      specStagePriority
        [⟨some "user", some "hi"⟩, ⟨some "assistant", some "hello"⟩,
         ⟨some "user", some "謝謝"⟩] :=
  C3_rule_based_matches_spec _ (by decide)

/-- C4: for every chat history of length at most 2 (the empty history
included) the stage classifier answers `opening`, whatever the external
classifier outputs. -/
theorem C4_short_history_is_opening (classifierOutput : Option String)
    (chat_history : List Msg) (hlen : chat_history.length ≤ 2) :
    analyze_conversation_stage classifierOutput chat_history = "opening" := by
  unfold analyze_conversation_stage
  by_cases he : chat_history.isEmpty
  · simp [he]
  · simp [he, hlen]

/-- Witness for C4 at a one-message history and a classifier answering a
valid non-opening stage. -/
theorem C4_short_history_is_opening_witness :
    analyze_conversation_stage (some "deciding") [⟨some "user", some "hi"⟩] = "opening" :=
  C4_short_history_is_opening (some "deciding") [⟨some "user", some "hi"⟩] (by decide)

/-- C5: the rule-based stage fallback is total — on every history (empty
histories and messages without role or content included) it returns one of
the seven valid stages. -/
theorem C5_rule_based_total (chat_history : List Msg) :
    rule_based_stage_analysis chat_history ∈ valid_stages := by
  unfold rule_based_stage_analysis
  by_cases he : chat_history.isEmpty = true
  · rw [if_pos he]; simp [valid_stages]
  · rw [if_neg he]
    exact stage_chain_mem_valid chat_history.length _ _ _ _ _ _ _

/-- C6: whenever the stripped user message has fewer than 10 characters,
gating answers `true` with the needs-guidance reason; trigger 1 is evaluated
first, so this fires on a 5-character greeting as well. -/
theorem C6_short_message_triggers (user_message bot_response : String)
    (history : List Msg) (h : (stripStr user_message).length < 10) :
    should_ask_proactive_question user_message bot_response history =
      (true, "用戶回應簡短，需要更多引導") := by
  unfold should_ask_proactive_question
  simp [h]

/-- Witness for C6 at the 5-character greeting "hello". -/
theorem C6_short_message_triggers_witness :
    should_ask_proactive_question "hello" "您好！" [] =
      (true, "用戶回應簡短，需要更多引導") :=
  C6_short_message_triggers "hello" "您好！" [] (by decide)

/-- C8: the fallback intent classifier coincides with the reference priority
scan (search, detail, analysis, recommendation, greeting, goodbye, then
`other`); a message matching a search keyword and a later family's keyword is
`search_events`, and "hello" is `greeting`. -/
theorem C8_fallback_intent_matches_spec :
    (∀ m : String, fallback_intent_analysis m = specIntentScan m specIntentFamilies)
    ∧ fallback_intent_analysis "找 goodbye" = "search_events"
    ∧ fallback_intent_analysis "hello" = "greeting" :=
  ⟨fun _ => rfl, by decide, by decide⟩

/-! ## Claim C7: the stagnation trigger -/

/-- A six-message history whose last four turns hold two maximally repetitive
user messages: stagnation holds on the last-4 window, yet the history is not
longer than 6. -/
def c7CexHistory : List Msg :=
  [⟨some "user", some "activity activity activity"⟩, ⟨some "assistant", some "x"⟩,
   ⟨some "user", some "activity activity activity"⟩, ⟨some "assistant", some "y"⟩,
   ⟨some "user", some "activity activity activity"⟩, ⟨some "assistant", some "z"⟩]

/-- C7 counterexample: the claim omits the source's `len(conversation_history)
> 6` gate.  With triggers 1–4 silent, at least 2 user messages among the last
4 turns and repetition ratio above 0.6, gating can still answer `false`: it
does on a 6-message history. -/
theorem C7_stagnation_counterexample :
    ¬ (∀ (user_message bot_response : String) (history : List Msg),
        ¬ ((stripStr user_message).length < 10) →
        anyKeyword vague_indicators (strToLower user_message) = false →
        (containsSub bot_response "搜尋結果" && !containsSub bot_response "?") = false →
        anyKeyword interest_indicators (strToLower user_message) = false →
        2 ≤ (lastFourUserMsgs history).length →
        repetitionRatio (allWordsOf (lastFourUserMsgs history)) > 6/10 →
        should_ask_proactive_question user_message bot_response history =
          (true, "對話停滯，需要新的方向")) := by
  intro hclaim
  have hratio : repetitionRatio (allWordsOf (lastFourUserMsgs c7CexHistory)) > 6/10 := by
    have hw : allWordsOf (lastFourUserMsgs c7CexHistory) =
        ["activity", "activity", "activity", "activity", "activity", "activity"] := by decide
    have hd : (["activity", "activity", "activity", "activity", "activity",
        "activity"] : List String).dedup = ["activity"] := by decide
    unfold repetitionRatio
    rw [hw, hd]
    norm_num
  have h := hclaim "abcdefghijk" "ok" c7CexHistory
    (by decide) (by decide) (by decide) (by decide) (by decide) hratio
  have heval : should_ask_proactive_question "abcdefghijk" "ok" c7CexHistory =
      (false, "當前對話流暢，無需主動提問") := by decide
  rw [heval] at h
  simp at h

/-- C7 as amended: when additionally the conversation history is longer than
6 messages, triggers 1–4 are silent, the last 4 turns hold at least 2 user
messages and their combined repetition ratio exceeds 0.6, gating answers
`true` with the stalled reason. -/
theorem C7_stagnation_trigger_amended (user_message bot_response : String)
    (history : List Msg)
    (h1 : ¬ ((stripStr user_message).length < 10))
    (h2 : anyKeyword vague_indicators (strToLower user_message) = false)
    (h3 : (containsSub bot_response "搜尋結果" && !containsSub bot_response "?") = false)
    (h4 : anyKeyword interest_indicators (strToLower user_message) = false)
    (h5 : 6 < history.length)
    (h6 : 2 ≤ (lastFourUserMsgs history).length)
    (h7 : repetitionRatio (allWordsOf (lastFourUserMsgs history)) > 6/10) :
    should_ask_proactive_question user_message bot_response history =
      (true, "對話停滯，需要新的方向") := by
  simp only [should_ask_proactive_question]
  rw [if_neg h1, if_neg (by simp [h2]), if_neg (by simp [h3]), if_neg (by simp [h4]),
    if_pos ?_]
  refine ⟨h5, h6, ?_⟩
  unfold is_conversation_stagnant
  rw [if_neg (by omega)]
  by_cases hz : (allWordsOf (lastFourUserMsgs history)).length = 0
  · rw [if_pos hz]
  · rw [if_neg hz]
    exact decide_eq_true h7

/-- The 8-turn scenario of the spec: the last 4 user turns hold only the
repeated word "activity". -/
def c7WitnessHistory : List Msg :=
  [⟨some "user", some "activity activity activity"⟩, ⟨some "assistant", some "w"⟩,
   ⟨some "user", some "activity activity activity"⟩, ⟨some "assistant", some "x"⟩,
   ⟨some "user", some "activity activity activity"⟩, ⟨some "assistant", some "y"⟩,
   ⟨some "user", some "activity activity activity"⟩, ⟨some "assistant", some "z"⟩]

/-- Witness for the amended C7 at the 8-turn scenario. -/
theorem C7_stagnation_trigger_amended_witness :
    should_ask_proactive_question "abcdefghijk" "ok" c7WitnessHistory =
      (true, "對話停滯，需要新的方向") :=
  C7_stagnation_trigger_amended "abcdefghijk" "ok" c7WitnessHistory
    (by decide) (by decide) (by decide) (by decide) (by decide) (by decide)
    (by
      have hw : allWordsOf (lastFourUserMsgs c7WitnessHistory) =
          ["activity", "activity", "activity", "activity", "activity", "activity"] := by decide
      have hd : (["activity", "activity", "activity", "activity", "activity",
          "activity"] : List String).dedup = ["activity"] := by decide
      unfold repetitionRatio
      rw [hw, hd]
      norm_num)

/-! ## Claim C2: interest reinforcement -/

/-- The upsert changes exactly the stored confidence of the targeted name:
to `min(old + 0.1, 1.0)` when a row exists, to `0.7` otherwise. -/
theorem confOf_upsertInterest_self (tbl : List (String × ℚ)) (name : String) :
    confOf (upsertInterest tbl name) name =
      some ((confOf tbl name).elim (7/10) (fun c => min (c + 1/10) 1)) := by
  induction tbl with
  | nil => simp [confOf, upsertInterest, List.find?]
  | cons r rs ih =>
    by_cases hr : r.1 = name
    · simp [confOf, upsertInterest, hr, List.find?]
    · have hb : (r.1 == name) = false := by simp [hr]
      simp only [confOf, upsertInterest, if_neg hr, List.find?_cons, hb]
      exact ih

/-- After at least one upsert the stored confidence exists and is clamped at
`1.0`. -/
theorem confOf_iterUpsert_le_one (tbl : List (String × ℚ)) (name : String) (k : ℕ) :
    ∃ c : ℚ, confOf (iterUpsert tbl name (k+1)) name = some c ∧ c ≤ 1 := by
  induction k with
  | zero =>
    rw [iterUpsert, iterUpsert, confOf_upsertInterest_self]
    cases hc : confOf tbl name with
    | none => exact ⟨7/10, by simp [hc], by norm_num⟩
    | some c0 => exact ⟨min (c0 + 1/10) 1, by simp [hc], min_le_right _ _⟩
  | succ k ih =>
    obtain ⟨c, hc, hc1⟩ := ih
    rw [iterUpsert, confOf_upsertInterest_self, hc]
    exact ⟨min (c + 1/10) 1, by simp, min_le_right _ _⟩

/-- C2: the interest upsert bumps an existing row to `min(conf + 0.1, 1.0)`
and creates missing rows at `0.7`; consequently, for a profile whose stored
confidence does not exceed `1.0`, any sequence of repeated upserts of the
same name never decreases the confidence and never drives it above `1.0`. -/
theorem C2_interest_upsert_monotone (tbl : List (String × ℚ)) (name : String) :
    (confOf (upsertInterest tbl name) name =
       some ((confOf tbl name).elim (7/10) (fun c => min (c + 1/10) 1)))
    ∧ ((∀ c, confOf tbl name = some c → c ≤ 1) →
        (∀ c, confOf tbl name = some c →
          ∃ c1 : ℚ, confOf (iterUpsert tbl name 1) name = some c1 ∧ c ≤ c1 ∧ c1 ≤ 1)
        ∧ ∀ k : ℕ, ∃ ck ck1 : ℚ,
          confOf (iterUpsert tbl name (k+1)) name = some ck ∧
          confOf (iterUpsert tbl name (k+2)) name = some ck1 ∧
          ck ≤ ck1 ∧ ck ≤ 1 ∧ ck1 ≤ 1) := by
  refine ⟨confOf_upsertInterest_self tbl name, fun hle => ⟨fun c hc => ?_, fun k => ?_⟩⟩
  · refine ⟨min (c + 1/10) 1, ?_, le_min (by linarith) (hle c hc), min_le_right _ _⟩
    rw [iterUpsert, iterUpsert, confOf_upsertInterest_self, hc]
    rfl
  · obtain ⟨ck, hck, hck1⟩ := confOf_iterUpsert_le_one tbl name k
    refine ⟨ck, min (ck + 1/10) 1, hck, ?_, ?_, hck1, min_le_right _ _⟩
    · rw [iterUpsert, confOf_upsertInterest_self, hck]
      rfl
    · exact le_min (by linarith) hck1

/-- Witness for C2 at a table holding one row at confidence `0.7`. -/
theorem C2_interest_upsert_monotone_witness :
    ∃ ck ck1 : ℚ,
      confOf (iterUpsert [("音樂", 7/10)] "音樂" 1) "音樂" = some ck ∧
      confOf (iterUpsert [("音樂", 7/10)] "音樂" 2) "音樂" = some ck1 ∧
      ck ≤ ck1 ∧ ck ≤ 1 ∧ ck1 ≤ 1 :=
  ((C2_interest_upsert_monotone [("音樂", 7/10)] "音樂").2
    (fun c hc => by
      simp [confOf, List.find?] at hc
      rw [← hc]
      norm_num)).2 0

/-! ## Claim C9: preference write/read round-trip -/

/-- The part of a preference row the read path looks at. -/
def keyOf (r : PrefRow) : String × String := (r.ptype, r.pvalue)

/-- Closed form of the bucketing fold of `_get_user_preferences`: list
buckets collect the matching rows' values in order, the two scalar buckets
keep the last matching row's value. -/
theorem get_prefs_closed (rows : List PrefRow) (acc : PrefsResult) :
    rows.foldl prefStep acc =
      ⟨acc.preferred_categories ++
         (rows.filter (fun r => r.ptype == "category")).map (fun r => r.pvalue),
       acc.preferred_locations ++
         (rows.filter (fun r => r.ptype == "location")).map (fun r => r.pvalue),
       acc.preferred_times ++
         (rows.filter (fun r => r.ptype == "time")).map (fun r => r.pvalue),
       ((rows.filter (fun r => r.ptype == "group_size")).map (fun r => r.pvalue)).foldl
         (fun _ v => some v) acc.group_preference,
       ((rows.filter (fun r => r.ptype == "budget")).map (fun r => r.pvalue)).foldl
         (fun _ v => some v) acc.budget_sensitivity⟩ := by
  induction rows generalizing acc with
  | nil => simp
  | cons r rs ih =>
    rw [List.foldl_cons, ih]
    by_cases h1 : r.ptype = "category"
    · simp [prefStep, h1]
    · by_cases h2 : r.ptype = "location"
      · simp [prefStep, h1, h2]
      · by_cases h3 : r.ptype = "time"
        · simp [prefStep, h1, h2, h3]
        · by_cases h4 : r.ptype = "group_size"
          · simp [prefStep, h1, h2, h3, h4]
          · by_cases h5 : r.ptype = "budget"
            · simp [prefStep, h1, h2, h3, h4, h5]
            · simp [prefStep, h1, h2, h3, h4, h5]

/-- An upsert of a pair no row records appends a fresh row at the end. -/
theorem upsertPreference_of_absent (rows : List PrefRow) (t v : String)
    (h : countRows rows t v = 0) :
    upsertPreference rows t v = rows ++ [⟨t, v, 7/10⟩] := by
  induction rows with
  | nil => rfl
  | cons r rs ih =>
    rw [countRows, List.countP_cons] at h
    have hr : ¬ (r.ptype = t ∧ r.pvalue = v) := by
      intro hc
      simp [hc] at h
    have hrs : countRows rs t v = 0 := by
      rw [countRows]
      omega
    rw [upsertPreference, if_neg hr, ih hrs]
    rfl

/-- An upsert of a pair some row already records only touches a confidence:
the `(type, value)` column lists are unchanged. -/
theorem upsertPreference_keyOf_of_present (rows : List PrefRow) (t v : String)
    (h : countRows rows t v ≠ 0) :
    (upsertPreference rows t v).map keyOf = rows.map keyOf := by
  induction rows with
  | nil => simp [countRows] at h
  | cons r rs ih =>
    by_cases hr : r.ptype = t ∧ r.pvalue = v
    · rw [upsertPreference, if_pos hr]
      rfl
    · have hrs : countRows rs t v ≠ 0 := by
        rw [countRows, List.countP_cons] at h
        rw [countRows]
        simpa [hr] using h
      rw [upsertPreference, if_neg hr]
      simpa [keyOf] using ih hrs

/-- Row counting only reads the `(type, value)` columns. -/
theorem countRows_eq_of_keyOf_eq (rows1 rows2 : List PrefRow) (t v : String)
    (h : rows1.map keyOf = rows2.map keyOf) :
    countRows rows1 t v = countRows rows2 t v := by
  have h1 : ∀ rows : List PrefRow,
      countRows rows t v =
        List.countP (fun k : String × String => decide (k.1 = t ∧ k.2 = v)) (rows.map keyOf) := by
    intro rows
    rw [countRows, List.countP_map]
    rfl
  rw [h1, h1, h]

/-- The read path only depends on the `(type, value)` columns. -/
theorem get_prefs_eq_of_keyOf_eq (rows1 rows2 : List PrefRow)
    (h : rows1.map keyOf = rows2.map keyOf) :
    get_user_preferences rows1 = get_user_preferences rows2 := by
  have hf : ∀ t : String,
      (rows1.filter (fun r => r.ptype == t)).map (fun r => r.pvalue) =
        (rows2.filter (fun r => r.ptype == t)).map (fun r => r.pvalue) := by
    intro t
    have h2 : ∀ rows : List PrefRow,
        (rows.filter (fun r => r.ptype == t)).map (fun r => r.pvalue) =
          ((rows.map keyOf).filter (fun k => k.1 == t)).map (fun k => k.2) := by
      intro rows
      induction rows with
      | nil => rfl
      | cons r rs ih =>
        by_cases hr : r.ptype = t
        · simp [keyOf, hr, ih]
        · simp [keyOf, hr, ih]
    rw [h2, h2, h]
  rw [get_user_preferences, get_user_preferences, get_prefs_closed, get_prefs_closed,
    hf "category", hf "location", hf "time", hf "group_size", hf "budget"]

/-- The upsert leaves exactly one row of the pair when at most one existed. -/
theorem countRows_upsertPreference (rows : List PrefRow) (t v : String) :
    countRows (upsertPreference rows t v) t v =
      if countRows rows t v = 0 then 1 else countRows rows t v := by
  by_cases h : countRows rows t v = 0
  · rw [if_pos h, upsertPreference_of_absent rows t v h, countRows, List.countP_append]
    rw [countRows] at h
    rw [h]
    simp
  · rw [if_neg h, countRows_eq_of_keyOf_eq _ _ t v (upsertPreference_keyOf_of_present rows t v h)]

/-- List buckets surface a value exactly as often as rows record it. -/
theorem listBucketCount_eq_countRows (rows : List PrefRow) (t v : String)
    (ht : t = "category" ∨ t = "location" ∨ t = "time") :
    listBucketCount (get_user_preferences rows) t v = countRows rows t v := by
  have key : ∀ tt : String,
      ((rows.filter (fun r => r.ptype == tt)).map (fun r => r.pvalue)).count v =
        countRows rows tt v := by
    intro tt
    rw [List.count_eq_countP, List.countP_map, List.countP_filter, countRows]
    apply List.countP_congr
    intro r _
    by_cases h1 : r.ptype = tt <;> by_cases h2 : r.pvalue = v <;>
      simp [Function.comp, h1, h2]
  rcases ht with h | h | h <;> subst h <;>
    simp only [listBucketCount, get_user_preferences, get_prefs_closed, if_pos rfl,
      reduceIte, List.nil_append] <;>
    exact key _

/-- C9 counterexample: for the single-slot bucket types the claim fails on a
reachable profile — after upserting `group_size`: "A" then `group_size`: "B",
re-upserting "A" and reading surfaces "B", not "A" (the bucket holds the last
row of its type). -/
theorem C9_preference_roundtrip_counterexample :
    scalarBucket (get_user_preferences (upsertPreference
        (upsertPreference (upsertPreference [] "group_size" "A") "group_size" "B")
        "group_size" "A")) "group_size" = some "B" ∧ ("B" : String) ≠ "A" :=
  ⟨by decide, by decide⟩

/-- C9 as amended: for the list-typed buckets (category, location, time) any
profile recording the pair at most once surfaces the value exactly once after
one upsert and still once after two identical upserts; for the single-slot
buckets (group-size, budget) the same holds whenever the upsert freshly
creates the row. -/
theorem C9_preference_roundtrip_amended (rows : List PrefRow) (t v : String) :
    ((t = "category" ∨ t = "location" ∨ t = "time") → countRows rows t v ≤ 1 →
      listBucketCount (get_user_preferences (upsertPreference rows t v)) t v = 1 ∧
      listBucketCount (get_user_preferences
        (upsertPreference (upsertPreference rows t v) t v)) t v = 1)
    ∧ ((t = "group_size" ∨ t = "budget") → countRows rows t v = 0 →
      scalarBucket (get_user_preferences (upsertPreference rows t v)) t = some v ∧
      scalarBucket (get_user_preferences
        (upsertPreference (upsertPreference rows t v) t v)) t = some v) := by
  constructor
  · intro ht hc
    have h1 : countRows (upsertPreference rows t v) t v = 1 := by
      rw [countRows_upsertPreference]
      split_ifs with h0
      · rfl
      · omega
    have h2 : countRows (upsertPreference (upsertPreference rows t v) t v) t v = 1 := by
      rw [countRows_upsertPreference, h1]
      simp
    exact ⟨by rw [listBucketCount_eq_countRows _ _ _ ht, h1],
           by rw [listBucketCount_eq_countRows _ _ _ ht, h2]⟩
  · intro ht hc
    have hfirst : scalarBucket (get_user_preferences (upsertPreference rows t v)) t
        = some v := by
      rw [upsertPreference_of_absent rows t v hc]
      rcases ht with h | h <;> subst h <;>
        simp [scalarBucket, get_user_preferences, get_prefs_closed, List.filter_append,
          List.foldl_append, prefStep]
    refine ⟨hfirst, ?_⟩
    have hpos : countRows (upsertPreference rows t v) t v ≠ 0 := by
      rw [countRows_upsertPreference, if_pos hc]
      omega
    rw [get_prefs_eq_of_keyOf_eq _ _
      (upsertPreference_keyOf_of_present (upsertPreference rows t v) t v hpos)]
    exact hfirst

/-- Witness for the amended C9 on the empty table, for a list bucket and a
scalar bucket (the latter after the double upsert). -/
theorem C9_preference_roundtrip_amended_witness :
    listBucketCount (get_user_preferences (upsertPreference [] "category" "音樂"))
        "category" "音樂" = 1 ∧
    scalarBucket (get_user_preferences (upsertPreference
        (upsertPreference [] "budget" "中") "budget" "中")) "budget" = some "中" :=
  ⟨((C9_preference_roundtrip_amended [] "category" "音樂").1 (Or.inl rfl) (by decide)).1,
   ((C9_preference_roundtrip_amended [] "budget" "中").2 (Or.inr rfl) (by decide)).2⟩

/-! ## Claim C10: personalized-recommendation confidence -/

/-- A freshly created profile: visit count 1, no interest/preference rows,
empty trait map. -/
def freshProfile : StoredProfile := ⟨1, [], [], []⟩

/-- C10 counterexample: on a fresh profile the code yields confidence `0.25`,
not the claimed fraction `0` — the preference check tests the size of the
five-key bucket dictionary, which is never empty. -/
theorem C10_confidence_counterexample :
    recommendation_confidence freshProfile = 1/4 ∧
    specCompletenessFraction freshProfile = 0 ∧ (1/4 : ℚ) ≠ 0 := by
  refine ⟨?_, ?_, by norm_num⟩
  · simp [recommendation_confidence, freshProfile, preferencesDict]
  · simp [specCompletenessFraction, freshProfile]

/-- C10 as amended: the confidence equals the fraction of the four checks
with the preference check always satisfied (the bucket dictionary always has
its five keys), hence it lies in {0.25, 0.5, 0.75, 1}; each value is attained
and a fresh profile yields 0.25. -/
theorem C10_confidence_amended (p : StoredProfile) :
    recommendation_confidence p =
      ((if 0 < p.interestRows.length then 1 else 0) + 1 +
       (if 0 < p.personality_traits.length then 1 else 0) +
       (if 1 < p.visit_count then 1 else 0) : ℚ) / 4
    ∧ (recommendation_confidence p = 1/4 ∨ recommendation_confidence p = 1/2 ∨
       recommendation_confidence p = 3/4 ∨ recommendation_confidence p = 1)
    ∧ recommendation_confidence freshProfile = 1/4
    ∧ recommendation_confidence ⟨1, [("音樂", 7/10)], [], []⟩ = 1/2
    ∧ recommendation_confidence ⟨2, [("音樂", 7/10)], [], []⟩ = 3/4
    ∧ recommendation_confidence ⟨2, [("音樂", 7/10)], [], [("openness", 8/10)]⟩ = 1 := by
  have hshape : recommendation_confidence p =
      ((if 0 < p.interestRows.length then 1 else 0) + 1 +
       (if 0 < p.personality_traits.length then 1 else 0) +
       (if 1 < p.visit_count then 1 else 0) : ℚ) / 4 := by
    simp [recommendation_confidence, preferencesDict]
  refine ⟨hshape, ?_, ?_, ?_, ?_, ?_⟩
  · rw [hshape]
    by_cases h1 : 0 < p.interestRows.length <;>
      by_cases h2 : 0 < p.personality_traits.length <;>
      by_cases h3 : 1 < p.visit_count <;>
      simp [h1, h2, h3] <;> norm_num
  · simp [recommendation_confidence, freshProfile, preferencesDict]
  · simp [recommendation_confidence, preferencesDict]
    norm_num
  · simp [recommendation_confidence, preferencesDict]
    norm_num
  · simp [recommendation_confidence, preferencesDict]
    norm_num

/-! ## Claim C1: cross-session merge order-independence -/

/-- List maximum as a left fold over an optional accumulator. -/
theorem foldl_maxStep_eq_max? {α : Type} [LinearOrder α] :
    ∀ (l : List α), l.max? = l.foldl (fun o x => some (o.elim x (fun y => max y x))) none := by
  have aux : ∀ (l : List α) (a : α),
      l.foldl (fun o x => some (o.elim x (fun y => max y x))) (some a) = some (l.foldl max a) := by
    intro l
    induction l with
    | nil => intro a; rfl
    | cons b bs ih => intro a; exact ih (max a b)
  intro l
  cases l with
  | nil => rfl
  | cons x xs => exact (aux xs x).symm

/-- The maximum of a list is invariant under permutation. -/
theorem max?_perm_invariant {α : Type} [LinearOrder α] {l1 l2 : List α} (h : l1.Perm l2) :
    l1.max? = l2.max? := by
  haveI : RightCommutative (fun (o : Option α) (x : α) => some (o.elim x (fun y => max y x))) :=
    ⟨by
      intro o a b
      cases o with
      | none => simp [max_comm]
      | some c => simp [max_assoc, max_comm b a]⟩
  rw [foldl_maxStep_eq_max?, foldl_maxStep_eq_max?]
  exact h.foldl_eq none

/-- Combining two optional confidences, keeping the maximum. -/
def mergeConf : Option ℚ → Option ℚ → Option ℚ
  | none, b => b
  | some a, none => some a
  | some a, some b => some (max a b)

/-- The optional confidence a single entry contributes to a name. -/
def singleConf (it : String × ℚ) (n : String) : Option ℚ :=
  if it.1 = n then some it.2 else none

/-- The highest confidence recorded for a name in a flat interest list. -/
def maxConfOf (l : List (String × ℚ)) (n : String) : Option ℚ :=
  (l.filterMap (fun p => if p.1 = n then some p.2 else none)).max?

/-- Merging with nothing on the right changes nothing. -/
theorem mergeConf_none_right (a : Option ℚ) : mergeConf a none = a := by
  cases a <;> rfl

/-- Merging optional confidences is associative. -/
theorem mergeConf_assoc (a b c : Option ℚ) :
    mergeConf (mergeConf a b) c = mergeConf a (mergeConf b c) := by
  cases a <;> cases b <;> cases c <;> simp [mergeConf, max_assoc]

/-- Lookup on a cons cell. -/
theorem confOf_cons (e : String × ℚ) (es : List (String × ℚ)) (n : String) :
    confOf (e :: es) n = if e.1 = n then some e.2 else confOf es n := by
  by_cases h : e.1 = n <;> simp [confOf, List.find?_cons, h]

/-- Lookup after the in-place overwrite of the entry of one key. -/
theorem confOf_map_replace (acc : List (String × ℚ)) (it : String × ℚ) (n : String) :
    confOf (acc.map (fun x => if x.1 == it.1 then it else x)) n =
      if n = it.1 then (confOf acc n).map (fun _ => it.2) else confOf acc n := by
  induction acc with
  | nil => simp [confOf, List.find?]
  | cons e es ih =>
    simp only [List.map_cons, confOf_cons]
    by_cases ha : e.1 = it.1
    · by_cases hc : n = it.1
      · simp [ha, hc]
      · have hcn : ¬ it.1 = n := fun h => hc h.symm
        have han : ¬ e.1 = n := ha ▸ hcn
        simpa [ha, hc, hcn, han] using ih
    · by_cases hc : n = it.1
      · have han : ¬ e.1 = n := hc ▸ ha
        simpa [ha, hc, han] using ih
      · by_cases hb : e.1 = n
        · simp [ha, hb, hc]
        · simpa [ha, hb, hc] using ih

/-- Lookup on an appended list prefers the left part. -/
theorem confOf_append (l1 l2 : List (String × ℚ)) (n : String) :
    confOf (l1 ++ l2) n = (confOf l1 n).elim (confOf l2 n) some := by
  induction l1 with
  | nil => simp [confOf, List.find?]
  | cons e es ih =>
    rw [List.cons_append]
    by_cases h : e.1 = n
    · simp [confOf_cons, h]
    · simpa [confOf_cons, h] using ih

/-- A row found by key search carries that key. -/
theorem find?_key_eq (acc : List (String × ℚ)) (k : String) (e : String × ℚ)
    (h : acc.find? (fun r => r.1 == k) = some e) : e.1 = k := by
  induction acc with
  | nil => simp [List.find?] at h
  | cons a as ih =>
    rw [List.find?_cons] at h
    cases hb : (a.1 == k) with
    | true =>
      rw [hb] at h
      have ha : a = e := by simpa using h
      subst ha
      simpa using hb
    | false =>
      rw [hb] at h
      exact ih h

/-- The row the de-duplication step finds determines the stored confidence. -/
theorem confOf_find?_key (acc : List (String × ℚ)) (it : String × ℚ) :
    ∀ e, acc.find? (fun e => e.1 == it.1) = some e →
      e.1 = it.1 ∧ confOf acc it.1 = some e.2 := by
  intro e hf
  refine ⟨find?_key_eq acc it.1 e hf, ?_⟩
  rw [confOf, hf]
  rfl

/-- One de-duplication step merges the new entry into the lookup. -/
theorem confOf_dedupStep (acc : List (String × ℚ)) (it : String × ℚ) (n : String) :
    confOf (dedupStep acc it) n = mergeConf (confOf acc n) (singleConf it n) := by
  unfold dedupStep
  cases hf : acc.find? (fun e => e.1 == it.1) with
  | some e =>
    dsimp only
    obtain ⟨he1, he2⟩ := confOf_find?_key acc it e hf
    by_cases hlt : e.2 < it.2
    · rw [if_pos hlt, confOf_map_replace]
      by_cases hn : n = it.1
      · subst hn
        rw [if_pos rfl, he2]
        simp [singleConf, mergeConf, max_eq_right hlt.le]
      · rw [if_neg hn, singleConf, if_neg (fun h => hn h.symm), mergeConf_none_right]
    · rw [if_neg hlt]
      by_cases hn : n = it.1
      · subst hn
        rw [he2]
        simp [singleConf, mergeConf, max_eq_left (not_lt.mp hlt)]
      · rw [singleConf, if_neg (fun h => hn h.symm), mergeConf_none_right]
  | none =>
    dsimp only
    rw [confOf_append]
    by_cases hn : n = it.1
    · subst hn
      have hnone : confOf acc it.1 = none := by
        rw [confOf, hf]
        rfl
      rw [hnone, singleConf, if_pos rfl]
      simp [mergeConf, confOf_cons, confOf]
    · rw [singleConf, if_neg (Ne.symm hn)]
      have hb : (it.1 == n) = false := by simp [Ne.symm hn]
      have h2 : confOf [it] n = none := by
        simp [confOf, List.find?, hb]
      rw [h2, mergeConf_none_right]
      cases confOf acc n <;> rfl

/-- The per-name maximum over a cons cell. -/
theorem maxConfOf_cons (it : String × ℚ) (l : List (String × ℚ)) (n : String) :
    maxConfOf (it :: l) n = mergeConf (singleConf it n) (maxConfOf l n) := by
  by_cases hn : it.1 = n
  · rw [maxConfOf, List.filterMap_cons, if_pos hn, List.max?_cons, singleConf, if_pos hn]
    cases hrest : (l.filterMap (fun p => if p.1 = n then some p.2 else none)).max? with
    | none => simp [maxConfOf, hrest, mergeConf]
    | some m => simp [maxConfOf, hrest, mergeConf]
  · rw [maxConfOf, List.filterMap_cons, if_neg hn, singleConf, if_neg hn]
    rfl

/-- The de-duplication fold computes, per name, the merged maximum
confidence. -/
theorem confOf_foldl_dedupStep (l : List (String × ℚ)) :
    ∀ (acc : List (String × ℚ)) (n : String),
      confOf (l.foldl dedupStep acc) n = mergeConf (confOf acc n) (maxConfOf l n) := by
  induction l with
  | nil =>
    intro acc n
    rw [List.foldl_nil, maxConfOf]
    simp [mergeConf_none_right, List.max?_nil]
  | cons it l ih =>
    intro acc n
    rw [List.foldl_cons, ih, confOf_dedupStep, maxConfOf_cons, mergeConf_assoc]

/-- The in-place overwrite keeps the key column unchanged. -/
theorem keys_map_replace (acc : List (String × ℚ)) (it : String × ℚ) :
    (acc.map (fun x => if x.1 == it.1 then it else x)).map Prod.fst = acc.map Prod.fst := by
  rw [List.map_map]
  apply List.map_congr_left
  intro x hx
  by_cases hb : x.1 = it.1
  · simp [Function.comp, hb]
  · simp [Function.comp, hb]

/-- The de-duplication fold keeps keys unique, and its key set is the union
of the accumulator's and the input's keys. -/
theorem keys_foldl_dedupStep (l : List (String × ℚ)) :
    ∀ acc : List (String × ℚ), (acc.map Prod.fst).Nodup →
      ((l.foldl dedupStep acc).map Prod.fst).Nodup ∧
      (∀ n, n ∈ (l.foldl dedupStep acc).map Prod.fst ↔
        n ∈ acc.map Prod.fst ∨ n ∈ l.map Prod.fst) := by
  induction l with
  | nil =>
    intro acc h
    simpa using h
  | cons it l ih =>
    intro acc hacc
    rw [List.foldl_cons]
    have hstep : ((dedupStep acc it).map Prod.fst).Nodup ∧
        (∀ n, n ∈ (dedupStep acc it).map Prod.fst ↔ n ∈ acc.map Prod.fst ∨ n = it.1) := by
      unfold dedupStep
      cases hf : acc.find? (fun e => e.1 == it.1) with
      | some e =>
        dsimp only
        have hkey := find?_key_eq acc it.1 e hf
        have hmem : e ∈ acc := List.mem_of_find?_eq_some hf
        have hin : it.1 ∈ acc.map Prod.fst := by
          rw [← hkey]
          exact List.mem_map_of_mem _ hmem
        have hsame : ∀ n, n ∈ acc.map Prod.fst ↔ (n ∈ acc.map Prod.fst ∨ n = it.1) := by
          intro n
          constructor
          · exact Or.inl
          · rintro (h | h)
            · exact h
            · rw [h]
              exact hin
        by_cases hlt : e.2 < it.2
        · rw [if_pos hlt, keys_map_replace]
          exact ⟨hacc, hsame⟩
        · rw [if_neg hlt]
          exact ⟨hacc, hsame⟩
      | none =>
        dsimp only
        have hnot : it.1 ∉ acc.map Prod.fst := by
          intro hmem
          obtain ⟨x, hx, hx1⟩ := List.mem_map.mp hmem
          have hxn := List.find?_eq_none.mp hf x hx
          simp [hx1] at hxn
        rw [List.map_append]
        constructor
        · simp [List.nodup_append, hacc, hnot]
        · intro n
          simp [List.mem_append]
    obtain ⟨h1, h2⟩ := hstep
    obtain ⟨h3, h4⟩ := ih (dedupStep acc it) h1
    refine ⟨h3, fun n => ?_⟩
    rw [h4 n, h2 n, List.map_cons]
    simp only [List.mem_cons]
    tauto

/-- In a key-unique association list, membership of a pair is exactly a
successful lookup. -/
theorem mem_assoc_iff_confOf (l : List (String × ℚ)) (hnd : (l.map Prod.fst).Nodup)
    (n : String) (c : ℚ) :
    (n, c) ∈ l ↔ confOf l n = some c := by
  induction l with
  | nil => simp [confOf, List.find?]
  | cons e es ih =>
    rw [List.map_cons, List.nodup_cons] at hnd
    obtain ⟨he, hes⟩ := hnd
    rw [confOf_cons, List.mem_cons]
    by_cases hb : e.1 = n
    · rw [if_pos hb]
      constructor
      · rintro (h | h)
        · rw [← h]
        · exfalso
          apply he
          rw [hb]
          exact List.mem_map_of_mem Prod.fst h
      · intro h
        left
        have : c = e.2 := by injection h with h2; exact h2.symm
        rw [this, ← hb]
    · rw [if_neg hb]
      rw [← ih hes]
      constructor
      · rintro (h | h)
        · exfalso
          apply hb
          rw [← h]
        · exact h
      · exact Or.inr

/-- The de-duplicated interest list has unique names. -/
theorem dedupKeepMax_keys_nodup (l : List (String × ℚ)) :
    ((dedupKeepMax l).map Prod.fst).Nodup :=
  (keys_foldl_dedupStep l [] (by simp)).1

/-- The de-duplicated interest list holds exactly the per-name maxima. -/
theorem mem_dedupKeepMax (l : List (String × ℚ)) (n : String) (c : ℚ) :
    (n, c) ∈ dedupKeepMax l ↔ maxConfOf l n = some c := by
  rw [mem_assoc_iff_confOf _ (dedupKeepMax_keys_nodup l), dedupKeepMax,
    confOf_foldl_dedupStep]
  rfl

/-- Per-name maxima are invariant under permutation of the input rows. -/
theorem maxConfOf_perm {l1 l2 : List (String × ℚ)} (h : l1.Perm l2) (n : String) :
    maxConfOf l1 n = maxConfOf l2 n :=
  max?_perm_invariant (h.filterMap _)

/-- De-duplication sends permuted inputs to permuted outputs. -/
theorem dedupKeepMax_perm {l1 l2 : List (String × ℚ)} (h : l1.Perm l2) :
    (dedupKeepMax l1).Perm (dedupKeepMax l2) := by
  rw [List.perm_ext_iff_of_nodup (List.Nodup.of_map _ (dedupKeepMax_keys_nodup l1))
    (List.Nodup.of_map _ (dedupKeepMax_keys_nodup l2))]
  rintro ⟨n, c⟩
  rw [mem_dedupKeepMax, mem_dedupKeepMax, maxConfOf_perm h n]

/-- Flattened maps of permuted lists are permuted. -/
theorem perm_flatMap {α β : Type} {l1 l2 : List α} (h : l1.Perm l2) (f : α → List β) :
    (l1.flatMap f).Perm (l2.flatMap f) := by
  rw [List.flatMap_def, List.flatMap_def]
  exact (h.map f).flatten

/-- Emptiness is invariant under permutation. -/
theorem perm_isEmpty {α : Type} {l1 l2 : List α} (h : l1.Perm l2) :
    l1.isEmpty = l2.isEmpty := by
  rcases l2 with _ | ⟨b, bs⟩
  · rw [h.eq_nil]
  · rcases l1 with _ | ⟨a, as⟩
    · exact absurd h.symm.eq_nil (List.cons_ne_nil b bs)
    · rfl

/-- C1 as amended: integrating permuted profile lists yields equal
visit counts, total interactions, satisfaction scores and last-activity
timestamps (default-profile fallbacks aligned), interest lists that are
permutations of each other (both sorted by confidence descending, but ties
are broken by first-encounter order, not by name), and preference buckets
that are equal as sets. -/
theorem C1_integrate_perm_amended (ps qs : List SessionProfile) (hp : ps.Perm qs) :
    (integrate_profiles ps).map (fun r => r.visit_count) =
      (integrate_profiles qs).map (fun r => r.visit_count)
    ∧ (integrate_profiles ps).map (fun r => r.total_interactions) =
      (integrate_profiles qs).map (fun r => r.total_interactions)
    ∧ (integrate_profiles ps).map (fun r => r.satisfaction_score) =
      (integrate_profiles qs).map (fun r => r.satisfaction_score)
    ∧ (integrate_profiles ps).map (fun r => r.last_activity) =
      (integrate_profiles qs).map (fun r => r.last_activity)
    ∧ ∀ r1 r2, integrate_profiles ps = some r1 → integrate_profiles qs = some r2 →
        r1.interests.Perm r2.interests
        ∧ (∀ x, x ∈ r1.prefs.preferred_categories ↔ x ∈ r2.prefs.preferred_categories)
        ∧ (∀ x, x ∈ r1.prefs.preferred_locations ↔ x ∈ r2.prefs.preferred_locations)
        ∧ (∀ x, x ∈ r1.prefs.preferred_times ↔ x ∈ r2.prefs.preferred_times)
        ∧ (∀ x, x ∈ r1.prefs.group_preference ↔ x ∈ r2.prefs.group_preference)
        ∧ (∀ x, x ∈ r1.prefs.budget_sensitivity ↔ x ∈ r2.prefs.budget_sensitivity) := by
  have hE : ps.isEmpty = qs.isEmpty := perm_isEmpty hp
  have hM : (ps.filterMap (fun p => p.last_activity)).max? =
      (qs.filterMap (fun p => p.last_activity)).max? :=
    max?_perm_invariant (hp.filterMap _)
  unfold integrate_profiles
  rw [hE, hM]
  by_cases hq : qs.isEmpty = true
  · simp only [if_pos hq]
    exact ⟨by simp, by simp, by simp, by simp, fun r1 r2 h1 _ => absurd h1 (by simp)⟩
  · simp only [if_neg hq]
    cases hsc : (qs.filterMap (fun p => p.last_activity)).max? with
    | none => exact ⟨by simp, by simp, by simp, by simp, fun r1 r2 h1 _ => absurd h1 (by simp)⟩
    | some la =>
      have hsat : (if (ps.filterMap (fun p => p.satisfaction_score)).isEmpty then none
            else some ((ps.filterMap (fun p => p.satisfaction_score)).sum /
              ((ps.filterMap (fun p => p.satisfaction_score)).length : ℚ))) =
          (if (qs.filterMap (fun p => p.satisfaction_score)).isEmpty then none
            else some ((qs.filterMap (fun p => p.satisfaction_score)).sum /
              ((qs.filterMap (fun p => p.satisfaction_score)).length : ℚ))) := by
        have hperm := hp.filterMap (fun p => p.satisfaction_score)
        rw [perm_isEmpty hperm, hperm.sum_eq, hperm.length_eq]
      refine ⟨?_, ?_, ?_, rfl, ?_⟩
      · simp [hp.length_eq]
      · simp [(hp.map (fun p => p.total_interactions.getD 0)).sum_eq]
      · simp only [Option.map_some]
        rw [hsat]
        rfl
      · intro r1 r2 h1 h2
        have hr1 : r1 = _ := (Option.some.inj h1).symm
        have hr2 : r2 = _ := (Option.some.inj h2).symm
        subst hr1
        subst hr2
        have hint : (ps.flatMap (fun p => p.interests)).Perm
            (qs.flatMap (fun p => p.interests)) := perm_flatMap hp _
        refine ⟨?_, ?_, ?_, ?_, ?_, ?_⟩
        · exact (List.perm_insertionSort _ _).trans
            ((dedupKeepMax_perm hint).trans (List.perm_insertionSort _ _).symm)
        · intro x
          simp only [mergePrefs, List.mem_dedup]
          exact (perm_flatMap hp _).mem_iff
        · intro x
          simp only [mergePrefs, List.mem_dedup]
          exact (perm_flatMap hp _).mem_iff
        · intro x
          simp only [mergePrefs, List.mem_dedup]
          exact (perm_flatMap hp _).mem_iff
        · intro x
          simp only [mergePrefs, List.mem_dedup]
          exact (hp.map _).mem_iff
        · intro x
          simp only [mergePrefs, List.mem_dedup]
          exact (hp.map _).mem_iff

/-- A session profile holding the single interest "b" at confidence 1. -/
def c1ProfileA : SessionProfile := ⟨some 0, none, some 1, [("b", 1)], []⟩

/-- A session profile holding the single interest "a" at confidence 1. -/
def c1ProfileB : SessionProfile := ⟨some 0, none, some 1, [("a", 1)], []⟩

/-- C1 counterexample: the merge is not order-independent as claimed — two
profiles whose interests tie in confidence integrate to differently ordered
interest lists depending on profile order, because the stable sort breaks
ties by first encounter, not by name. -/
theorem C1_integrate_counterexample :
    (integrate_profiles [c1ProfileA, c1ProfileB]).map (fun r => r.interests) ≠
      (integrate_profiles [c1ProfileB, c1ProfileA]).map (fun r => r.interests) := by
  decide

/-- Witness for the amended C1 at the two concrete single-interest profiles
in both orders. -/
theorem C1_integrate_perm_amended_witness :
    (integrate_profiles [c1ProfileA, c1ProfileB]).map (fun r => r.visit_count) =
      (integrate_profiles [c1ProfileB, c1ProfileA]).map (fun r => r.visit_count)
    ∧ ∀ r1 r2, integrate_profiles [c1ProfileA, c1ProfileB] = some r1 →
        integrate_profiles [c1ProfileB, c1ProfileA] = some r2 →
        r1.interests.Perm r2.interests := by
  have h := C1_integrate_perm_amended [c1ProfileA, c1ProfileB] [c1ProfileB, c1ProfileA]
    (List.Perm.swap c1ProfileB c1ProfileA [])
  exact ⟨h.1, fun r1 r2 h1 h2 => (h.2.2.2.2 r1 r2 h1 h2).1⟩
